import Mathlib

/-!
Verification of the Bitbucket operator scripts: a shallow embedding of the
paginated collectors, the bulk-mutation driver, the single-repository
inspector and the project-key provisioning logic, with theorems settling
the specification claims.

HTTP responses are modelled as already-received values: a status code, the
raw body text, and the parsed JSON body (typed per endpoint).  Loops that
the source writes as `while` are embedded with an explicit fuel argument;
a fuel-exhausted run returns `none` together with the number of page
fetches performed so far, so that both termination and fetch counts are
observable.
-/

set_option autoImplicit false

namespace BitbucketScripts

/-- An HTTP response as seen by the scripts: status code, raw text body,
and the JSON-decoded body typed per endpoint. -/
structure HttpResp (β : Type) where
  status : Nat
  text : String
  body : β
  deriving DecidableEq

/-- Embedding of `api_get_request` (bitbucket_cloud_audit.py, lines 81 to 94):
on status 200 return the decoded JSON body, otherwise raise an exception whose
message carries the status code. -/
def api_get_request {β : Type} (r : HttpResp β) : Except String β :=
  if r.status = 200 then
    Except.ok r.body
  else
    Except.error ("Failed to retrieve data. Status code: " ++ toString r.status)

/-- The JSON body of a successful pull-request creation: the nested
links.html.href web URL read by `create_pr`. -/
structure PrData where
  linksHtmlHref : String
  deriving DecidableEq

/-- Embedding of `create_pr` (bitbucket_code_search_replace.py, lines 119
to 138), given the response to the POST.  The function returns the lines it
prints; it raises nothing: a non-201 status is printed together with the raw
response text and the function returns normally. -/
def create_pr (r : HttpResp PrData) : List String :=
  if r.status = 201 then
    [" - Creating PR: Successful", " - PR URL: " ++ r.body.linksHtmlHref]
  else
    [" - Creating PR: Failed: " ++ toString r.status ++ " | " ++ r.text]

/-! ## Project-key provisioning (create_bitbucket_project.py) -/

/-- The Python string method upper, mapped over the characters.  (Same
function as `String.toUpper`, written so that it evaluates by kernel
reduction.) -/
def strUpper (s : String) : String :=
  ⟨s.data.map Char.toUpper⟩

/-- Embedding of `generate_project_key` (create_bitbucket_project.py,
lines 115 to 117): first 3 letters of the business area, an underscore,
first 3 letters of the project name, upper-cased. -/
def generate_project_key (project_name business_area : String) : String :=
  strUpper (business_area.take 3) ++ "_" ++ strUpper (project_name.take 3)

/-- Embedding of `check_if_project_exists` (create_bitbucket_project.py,
lines 128 to 139).  The server is modelled as the status code returned for
a GET of the project by key: 200 means the project exists, 404 means it does
not, and any other status is treated as not existing. -/
def check_if_project_exists (server : String → Nat) (project_key : String) : Bool :=
  if server project_key = 200 then true
  else if server project_key = 404 then false
  else false

/-- Embedding of the body of `generate_unique_project_key`
(create_bitbucket_project.py, lines 119 to 126).  The random shuffles drawn
by successive loop iterations are modelled as a stream indexed by the attempt
number; `fuel` bounds the number of iterations observed, and `none` means the
loop has not returned within that bound. -/
def generate_unique_project_keyGo (server : String → Nat)
    (project_name business_area : String) (shuffles : Nat → String) :
    Nat → Nat → Option String
  | 0, _ => none
  | Nat.succ fuel, i =>
    let shuffled_project_name := shuffles i
    let project_key :=
      strUpper (business_area.take 3) ++ "_" ++ strUpper (shuffled_project_name.take 3)
    if check_if_project_exists server project_key then
      generate_unique_project_keyGo server project_name business_area shuffles fuel (i + 1)
    else
      some project_key

/-- `generate_unique_project_key` run from the first attempt. -/
def generate_unique_project_key (server : String → Nat)
    (project_name business_area : String) (shuffles : Nat → String) (fuel : Nat) :
    Option String :=
  generate_unique_project_keyGo server project_name business_area shuffles fuel 0

/-! ## Single-repository inspector (bitbucket_repo_info.py) -/

/-- One reviewer entry of a default-reviewer condition; the two fields are
read with a default of the empty string (Python dict get). -/
structure ReviewerItem where
  displayName : Option String
  emailAddress : Option String
  deriving DecidableEq

/-- One condition of the default-reviewers response array. -/
structure CondItem where
  reviewers : List ReviewerItem
  deriving DecidableEq

/-- A flattened reviewer record as assembled by `get_default_reviewers`. -/
structure ReviewerInfo where
  displayName : String
  emailAddress : String
  deriving DecidableEq

/-- The flattening of one reviewer item applied by `get_default_reviewers`. -/
def reviewerInfoOf (i : ReviewerItem) : ReviewerInfo :=
  { displayName := i.displayName.getD "", emailAddress := i.emailAddress.getD "" }

/-- Embedding of `get_default_reviewers` (bitbucket_repo_info.py, lines 50
to 65), given the response to the GET.  The pair is (printed lines, outcome);
an `Except.error` models an uncaught Python exception.  The source calls
response.json() before checking the status, so the decoded body is an
`Option`: `none` models a body that is not JSON, whose decoding raises
regardless of the status.  On status 200 the code subscripts the decoded
array at index 0, so an empty array raises IndexError; only the first
condition is read.  On any other status it prints a message and returns the
empty list. -/
def get_default_reviewers (r : HttpResp (Option (List CondItem))) :
    List String × Except String (List ReviewerInfo) :=
  match r.body with
  | none => ([], Except.error "JSONDecodeError: Expecting value")
  | some response_json =>
    if r.status = 200 then
      match response_json with
      | [] => ([], Except.error "IndexError: list index out of range")
      | c0 :: _ => ([], Except.ok (c0.reviewers.map reviewerInfoOf))
    else
      (["Failed to fetch default reviewers. Status code: " ++ toString r.status],
        Except.ok [])

/-- The JSON body of the pull-request settings endpoint, with the five
fields read by `get_merge_checks`. -/
structure MergeBody where
  needsWork : Bool
  requiredAllApprovers : Bool
  requiredAllTasksComplete : Bool
  requiredApprovers : Nat
  requiredSuccessfulBuilds : Nat
  deriving DecidableEq

/-- A value of the merge-checks report dictionary: a flag or a count. -/
inductive MergeVal where
  | flag (b : Bool)
  | count (n : Nat)
  deriving DecidableEq

/-- Embedding of `get_merge_checks` (bitbucket_repo_info.py, lines 68 to 85),
given the response to the GET.  The source calls response.json() before
checking the status, so a non-JSON body (`none`) raises regardless of the
status.  On status 200 it projects the settings object into the fixed
dictionary of named checks; otherwise it prints a message and returns the
empty dictionary. -/
def get_merge_checks (r : HttpResp (Option MergeBody)) :
    List String × Except String (List (String × MergeVal)) :=
  match r.body with
  | none => ([], Except.error "JSONDecodeError: Expecting value")
  | some response_json =>
    if r.status = 200 then
      ([], Except.ok
        [("No \x22needs work\x22 status", MergeVal.flag response_json.needsWork),
         ("All reviewers approve", MergeVal.flag response_json.requiredAllApprovers),
         ("No incomplete tasks", MergeVal.flag response_json.requiredAllTasksComplete),
         ("Minimum Approvals", MergeVal.count response_json.requiredApprovers),
         ("Minimum successful builds",
           MergeVal.count response_json.requiredSuccessfulBuilds)])
    else
      (["Failed to fetch repository settings. Status code: " ++ toString r.status],
        Except.ok [])

/-- One item of the branch-restrictions response: the branch matcher id and
the restriction type string. -/
structure RestrItem where
  matcherId : String
  restrType : String
  deriving DecidableEq

/-- The JSON body of the branch-restrictions endpoint.  The values field may
be absent; the response shape also carries a next-page locator, which the
code never reads. -/
structure RestrBody where
  values : Option (List RestrItem)
  next : Option String
  deriving DecidableEq

/-- One step of the reduction loop of `get_branch_restrictions`: insert a
(branch id, restriction type) pair into the insertion-ordered dictionary,
skipping a type already present for that branch. -/
def addRestriction (m : List (String × List String)) (branchId restr : String) :
    List (String × List String) :=
  if (m.lookup branchId).isSome then
    m.map (fun p =>
      if p.1 = branchId then (p.1, if restr ∈ p.2 then p.2 else p.2 ++ [restr]) else p)
  else
    m ++ [(branchId, [restr])]

/-- The reduction of `get_branch_restrictions` over the items of the
response, in order. -/
def restrictionsFold (items : List RestrItem) : List (String × List String) :=
  items.foldl (fun m it => addRestriction m it.matcherId it.restrType) []

/-- Embedding of `get_branch_restrictions` (bitbucket_repo_info.py, lines 88
to 108), given the response to the GET.  The code performs a single fetch:
the next field of the body is never consulted.  The source calls
response.json() before checking the status, so a non-JSON body (`none`)
raises regardless of the status.  On status 200 it reduces the values array
into the branch-to-restriction-types dictionary; a missing values field
raises KeyError; on any other status it prints a message and returns the
empty dictionary. -/
def get_branch_restrictions (r : HttpResp (Option RestrBody)) :
    List String × Except String (List (String × List String)) :=
  match r.body with
  | none => ([], Except.error "JSONDecodeError: Expecting value")
  | some response_json =>
    if r.status = 200 then
      match response_json.values with
      | none => ([], Except.error "KeyError: values")
      | some items => ([], Except.ok (restrictionsFold items))
    else
      (["Failed to fetch branch restrictions. Status code: " ++ toString r.status],
        Except.ok [])

/-- A concrete restrictions page with a duplicate (branch, type) pair and an
interleaved second branch. -/
def dupRestrPage : List RestrItem :=
  [{ matcherId := "b1", restrType := "read-only" },
   { matcherId := "b2", restrType := "pull-request-only" },
   { matcherId := "b1", restrType := "read-only" },
   { matcherId := "b1", restrType := "no-deletes" }]

/-- The inspector report: the three independent reads, in script order. -/
structure InspectReport where
  defaultReviewers : List ReviewerInfo
  mergeChecks : List (String × MergeVal)
  branchRestrictions : List (String × List String)
  deriving DecidableEq

/-- A well-formed all-false pull-request settings body. -/
def plainMergeBody : MergeBody :=
  { needsWork := false, requiredAllApprovers := false,
    requiredAllTasksComplete := false, requiredApprovers := 0,
    requiredSuccessfulBuilds := 0 }

/-- The merge-checks dictionary built from `plainMergeBody`. -/
def plainMergeChecks : List (String × MergeVal) :=
  [("No \x22needs work\x22 status", MergeVal.flag false),
   ("All reviewers approve", MergeVal.flag false),
   ("No incomplete tasks", MergeVal.flag false),
   ("Minimum Approvals", MergeVal.count 0),
   ("Minimum successful builds", MergeVal.count 0)]

/-- Embedding of the main sequence of bitbucket_repo_info.py (lines 128 to
148): the three reads run one after the other; an uncaught exception in one
aborts the rest, and otherwise all three results are reported. -/
def runInspector (r1 : HttpResp (Option (List CondItem)))
    (r2 : HttpResp (Option MergeBody))
    (r3 : HttpResp (Option RestrBody)) : List String × Except String InspectReport :=
  match get_default_reviewers r1 with
  | (l1, Except.error e) => (l1, Except.error e)
  | (l1, Except.ok a) =>
    match get_merge_checks r2 with
    | (l2, Except.error e) => (l1 ++ l2, Except.error e)
    | (l2, Except.ok b) =>
      match get_branch_restrictions r3 with
      | (l3, Except.error e) => (l1 ++ l2 ++ l3, Except.error e)
      | (l3, Except.ok c) =>
        (l1 ++ l2 ++ l3, Except.ok { defaultReviewers := a, mergeChecks := b,
                                     branchRestrictions := c })

/-- First-seen deduplication with an accumulator of already-seen elements:
the order-preserving set semantics of a Python dict. -/
def firstSeenDedupAux (seen : List String) : List String → List String
  | [] => []
  | x :: xs =>
    if x ∈ seen then firstSeenDedupAux seen xs
    else x :: firstSeenDedupAux (x :: seen) xs

/-- First-seen deduplication of a list of strings. -/
def firstSeenDedup (l : List String) : List String :=
  firstSeenDedupAux [] l

/-- Modelled from the claim wording for C8: the mapping from each branch
matcher identity, in first-seen order, to the distinct restriction-type
strings applied to it, in first-seen order. -/
def specRestrictionMapping (items : List RestrItem) : List (String × List String) :=
  (firstSeenDedup (items.map RestrItem.matcherId)).map (fun b =>
    (b, firstSeenDedup ((items.filter (fun it => it.matcherId = b)).map RestrItem.restrType)))

/-! ## Paginated audit collectors (bitbucket_cloud_audit.py) -/

/-- The response envelope of a V2 collection endpoint: the values item array
(possibly absent) and the next-page locator (absent on the last page). -/
structure AuditPage (α : Type) where
  values : Option (List α)
  next : Option String
  deriving DecidableEq

/-- One repository item of the repositories endpoint, with the fields read
by `get_repositories`. -/
structure RepoItem where
  slug : String
  description : String
  mainbranchName : String
  isPrivate : Bool
  projectKey : String
  deriving DecidableEq

/-- One group item of a permissions-config groups endpoint: the nested group
slug and the permission level. -/
structure GroupPermItem where
  groupSlug : String
  permission : String
  deriving DecidableEq

/-- A group/permission edge of the audit report. -/
structure GroupInfo where
  slug : String
  permission : String
  deriving DecidableEq

/-- The flattening of one group item applied by both audit collectors. -/
def groupInfoOf (g : GroupPermItem) : GroupInfo :=
  { slug := g.groupSlug, permission := g.permission }

/-- A repository record of the audit report. -/
structure RepoInfo where
  slug : String
  description : String
  main_branchname : String
  is_private : Bool
  project_key : String
  groups : List GroupInfo
  deriving DecidableEq

/-- The repositories endpoint built by `get_repositories`. -/
def repositoriesEndpoint (bitbucket_url workspace : String) : String :=
  bitbucket_url ++ "/2.0/repositories/" ++ workspace ++ "?pagelen=100"

/-- The per-repository groups endpoint built by `get_repositories`. -/
def repoGroupsEndpoint (bitbucket_url workspace repo_slug : String) : String :=
  bitbucket_url ++ "/2.0/repositories/" ++ workspace ++ "/" ++ repo_slug
    ++ "/permissions-config/groups"

/-- The body of the per-repository loop of `get_repositories`
(bitbucket_cloud_audit.py, lines 103 to 123): for each repository item,
extract the record fields and fetch that repository's groups with a single
nested request, raising KeyError if the groups response lacks values. -/
def processRepoItems (gserver : String → HttpResp (AuditPage GroupPermItem))
    (bitbucket_url workspace : String) :
    List RepoItem → Except String (List RepoInfo)
  | [] => Except.ok []
  | item :: rest => do
    let groups ← api_get_request
      (gserver (repoGroupsEndpoint bitbucket_url workspace item.slug))
    match groups.values with
    | none => Except.error "KeyError: values"
    | some gs =>
      let repository_info : RepoInfo :=
        { slug := item.slug, description := item.description,
          main_branchname := item.mainbranchName, is_private := item.isPrivate,
          project_key := item.projectKey, groups := gs.map groupInfoOf }
      let tail ← processRepoItems gserver bitbucket_url workspace rest
      Except.ok (repository_info :: tail)

/-- The while loop of `get_repositories` (bitbucket_cloud_audit.py, lines 101
to 125): fetch the current endpoint, process its values (raising KeyError if
the field is absent), then move to the next field of the envelope.  The first
component counts the fetches of the paginated endpoint performed so far;
`none` means the loop is still running when the fuel runs out. -/
def get_repositoriesGo (server : String → HttpResp (AuditPage RepoItem))
    (gserver : String → HttpResp (AuditPage GroupPermItem))
    (bitbucket_url workspace : String) :
    Nat → String → List RepoInfo → Nat → Nat × Option (Except String (List RepoInfo))
  | 0, _, _, fetches => (fetches, none)
  | Nat.succ fuel, url, acc, fetches =>
    match api_get_request (server url) with
    | Except.error e => (fetches + 1, some (Except.error e))
    | Except.ok page =>
      match page.values with
      | none => (fetches + 1, some (Except.error "KeyError: values"))
      | some items =>
        match processRepoItems gserver bitbucket_url workspace items with
        | Except.error e => (fetches + 1, some (Except.error e))
        | Except.ok infos =>
          match page.next with
          | none => (fetches + 1, some (Except.ok (acc ++ infos)))
          | some nxt =>
            get_repositoriesGo server gserver bitbucket_url workspace fuel nxt
              (acc ++ infos) (fetches + 1)

/-- Embedding of `get_repositories` (bitbucket_cloud_audit.py, lines 97 to
127), started at the repositories endpoint with an empty accumulator. -/
def get_repositories (server : String → HttpResp (AuditPage RepoItem))
    (gserver : String → HttpResp (AuditPage GroupPermItem))
    (bitbucket_url workspace : String) (fuel : Nat) :
    Nat × Option (Except String (List RepoInfo)) :=
  get_repositoriesGo server gserver bitbucket_url workspace fuel
    (repositoriesEndpoint bitbucket_url workspace) [] 0

/-- One project item of the projects endpoint, with the fields read by
`get_projects`. -/
structure ProjItem where
  name : String
  key : String
  description : String
  deriving DecidableEq

/-- A project record of the audit report. -/
structure ProjInfo where
  name : String
  key : String
  description : String
  groups : List GroupInfo
  deriving DecidableEq

/-- The projects endpoint built by `get_projects`. -/
def projectsEndpoint (bitbucket_url workspace : String) : String :=
  bitbucket_url ++ "/2.0/workspaces/" ++ workspace ++ "/projects?pagelen=100"

/-- The per-project groups endpoint built by `get_projects`. -/
def projectGroupsEndpoint (bitbucket_url workspace project_key : String) : String :=
  bitbucket_url ++ "/2.0/workspaces/" ++ workspace ++ "/projects/" ++ project_key
    ++ "/permissions-config/groups?pagelen=100"

/-- The body of the per-project loop of `get_projects`
(bitbucket_cloud_audit.py, lines 136 to 155), analogous to the repository
case. -/
def processProjItems (gserver : String → HttpResp (AuditPage GroupPermItem))
    (bitbucket_url workspace : String) :
    List ProjItem → Except String (List ProjInfo)
  | [] => Except.ok []
  | item :: rest => do
    let groups ← api_get_request
      (gserver (projectGroupsEndpoint bitbucket_url workspace item.key))
    match groups.values with
    | none => Except.error "KeyError: values"
    | some gs =>
      let project_info : ProjInfo :=
        { name := item.name, key := item.key, description := item.description,
          groups := gs.map groupInfoOf }
      let tail ← processProjItems gserver bitbucket_url workspace rest
      Except.ok (project_info :: tail)

/-- The while loop of `get_projects` (bitbucket_cloud_audit.py, lines 134 to
157).  Unlike `get_repositories`, the source reassigns the endpoint variable
inside the per-item for loop, so a page with an empty values array leaves the
endpoint unchanged and the loop refetches the same page. -/
def get_projectsGo (server : String → HttpResp (AuditPage ProjItem))
    (gserver : String → HttpResp (AuditPage GroupPermItem))
    (bitbucket_url workspace : String) :
    Nat → String → List ProjInfo → Nat → Nat × Option (Except String (List ProjInfo))
  | 0, _, _, fetches => (fetches, none)
  | Nat.succ fuel, url, acc, fetches =>
    match api_get_request (server url) with
    | Except.error e => (fetches + 1, some (Except.error e))
    | Except.ok page =>
      match page.values with
      | none => (fetches + 1, some (Except.error "KeyError: values"))
      | some items =>
        match processProjItems gserver bitbucket_url workspace items with
        | Except.error e => (fetches + 1, some (Except.error e))
        | Except.ok infos =>
          match (if items = [] then some url else page.next) with
          | none => (fetches + 1, some (Except.ok (acc ++ infos)))
          | some nxt =>
            get_projectsGo server gserver bitbucket_url workspace fuel nxt
              (acc ++ infos) (fetches + 1)

/-- Embedding of `get_projects` (bitbucket_cloud_audit.py, lines 130 to
159), started at the projects endpoint with an empty accumulator. -/
def get_projects (server : String → HttpResp (AuditPage ProjItem))
    (gserver : String → HttpResp (AuditPage GroupPermItem))
    (bitbucket_url workspace : String) (fuel : Nat) :
    Nat × Option (Except String (List ProjInfo)) :=
  get_projectsGo server gserver bitbucket_url workspace fuel
    (projectsEndpoint bitbucket_url workspace) [] 0

/-- A server presents a chain of pages: each listed URL answers with status
200, the given values array, and a next field locating the following listed
page (absent at the end of the list). -/
def chainPages {α : Type} (server : String → HttpResp (AuditPage α)) :
    List (String × List α) → Prop
  | [] => True
  | (u, vs) :: rest =>
    (server u).status = 200 ∧ (server u).body.values = some vs ∧
      (server u).body.next = rest.head?.map Prod.fst ∧ chainPages server rest

/-- A chain of pages in which the values field of a page may be absent. -/
def chainPagesOpt {α : Type} (server : String → HttpResp (AuditPage α)) :
    List (String × Option (List α)) → Prop
  | [] => True
  | (u, vs) :: rest =>
    (server u).status = 200 ∧ (server u).body.values = vs ∧
      (server u).body.next = rest.head?.map Prod.fst ∧ chainPagesOpt server rest

/-- The record built by the audit collectors from a repository item, with the
nested groups provided by the function `G` keyed by repository slug. -/
def repoInfoOf (G : String → List GroupPermItem) (item : RepoItem) : RepoInfo :=
  { slug := item.slug, description := item.description,
    main_branchname := item.mainbranchName, is_private := item.isPrivate,
    project_key := item.projectKey, groups := (G item.slug).map groupInfoOf }

/-- The record built by `get_projects` from a project item, with the nested
groups provided by the function `G` keyed by project key. -/
def projInfoOf (G : String → List GroupPermItem) (item : ProjItem) : ProjInfo :=
  { name := item.name, key := item.key, description := item.description,
    groups := (G item.key).map groupInfoOf }

/-! ## Code search collector and bulk mutation driver
(bitbucket_code_search_replace.py) -/

/-- One code-search hit: the path segments of the nested link URL, that is
the splitting on slashes of the path of item.file.links.self.href. -/
structure SearchItem where
  hrefPathSegments : List String
  deriving DecidableEq

/-- The repository identity parsed out of one search hit: path segment 4,
raising IndexError when the path is too short. -/
def extractRepo (item : SearchItem) : Except String String :=
  match item.hrefPathSegments[4]? with
  | none => Except.error "IndexError: list index out of range"
  | some r => Except.ok r

/-- The per-item extraction loop over one page of search hits. -/
def extractRepos : List SearchItem → Except String (List String)
  | [] => Except.ok []
  | i :: rest => do
    let r ← extractRepo i
    let rs ← extractRepos rest
    Except.ok (r :: rs)

/-- The search pagination loop of `search_and_update_code`
(bitbucket_code_search_replace.py, lines 164 to 188): on a 200 response the
values array is read with an empty-list default, each hit's repository is
parsed out, and the loop follows the next field; on any other status the
loop breaks, returning what was collected so far. -/
def searchCollectGo (server : String → HttpResp (AuditPage SearchItem)) :
    Nat → String → List String → Nat → Nat × Option (Except String (List String))
  | 0, _, _, fetches => (fetches, none)
  | Nat.succ fuel, url, acc, fetches =>
    let response := server url
    if response.status = 200 then
      match extractRepos (response.body.values.getD []) with
      | Except.error e => (fetches + 1, some (Except.error e))
      | Except.ok rs =>
        match response.body.next with
        | none => (fetches + 1, some (Except.ok (acc ++ rs)))
        | some nxt => searchCollectGo server fuel nxt (acc ++ rs) (fetches + 1)
    else
      (fetches + 1, some (Except.ok acc))

/-- The search endpoint built by `search_and_update_code`. -/
def searchEndpoint (base_endpoint workspace : String) : String :=
  base_endpoint ++ "/workspaces/" ++ workspace ++ "/search/code"

/-- The discovery phase of `search_and_update_code`, before deduplication. -/
def searchCollect (server : String → HttpResp (AuditPage SearchItem))
    (base_endpoint workspace : String) (fuel : Nat) :
    Nat × Option (Except String (List String)) :=
  searchCollectGo server fuel (searchEndpoint base_endpoint workspace) [] 0

/-- A constant repository-page server: every URL answers with one repository
item and no next page. -/
def oneRepoPageServer : String → HttpResp (AuditPage RepoItem) := fun _ =>
  { status := 200, text := "",
    body := { values := some [{ slug := "r1", description := "d",
                                mainbranchName := "main", isPrivate := true,
                                projectKey := "PK" }],
              next := none } }

/-- A constant group-page server: every URL answers with one group item and
no next page. -/
def oneGroupPageServer : String → HttpResp (AuditPage GroupPermItem) := fun _ =>
  { status := 200, text := "",
    body := { values := some [{ groupSlug := "g1", permission := "write" }],
              next := none } }

/-- A constant project-page server: every URL answers with one project item
and no next page. -/
def oneProjPageServer : String → HttpResp (AuditPage ProjItem) := fun _ =>
  { status := 200, text := "",
    body := { values := some [{ name := "n", key := "K", description := "d" }],
              next := none } }

/-- A constant search-page server whose pages lack the values field. -/
def noValuesSearchServer : String → HttpResp (AuditPage SearchItem) := fun _ =>
  { status := 200, text := "", body := { values := none, next := none } }

/-- A constant repository-page server whose pages lack the values field. -/
def noValuesRepoServer : String → HttpResp (AuditPage RepoItem) := fun _ =>
  { status := 200, text := "", body := { values := none, next := none } }

/-- The environment of one repository's mutation pipeline: for each fallible
local step, `none` models success and `some e` models the step's underlying
operation raising an exception with message `e`; the PR creation is given the
HTTP response to its POST. -/
structure RepoOutcomes where
  clone : Option String
  branch : Option String
  edit : Option String
  commit : Option String
  push : Option String
  prResp : HttpResp PrData
  cleanup : Option String
  deriving DecidableEq

/-- Embedding of `clone_repository` (bitbucket_code_search_replace.py, lines
45 to 53): print the step banner; on failure print the message and re-raise. -/
def clone_repository (outcome : Option String) : List String × Except String Unit :=
  match outcome with
  | none => ([" - Cloning repository locally: Successful"], Except.ok ())
  | some e => ([" - Cloning repository locally: Failed: " ++ e], Except.error e)

/-- Embedding of `create_and_switch_branch` (lines 56 to 66): same
print-then-re-raise discipline as the clone step. -/
def create_and_switch_branch (outcome : Option String) : List String × Except String Unit :=
  match outcome with
  | none => ([" - Creating and switching to a new branch: Successful"], Except.ok ())
  | some e => ([" - Creating and switching to a new branch: Failed: " ++ e], Except.error e)

/-- The exception behaviour of `update_references` (lines 69 to 91) as a
pipeline step: any exception during the walk is printed and re-raised. -/
def update_references_step (outcome : Option String) : List String × Except String Unit :=
  match outcome with
  | none => ([" - Updating references to the modules: Successful"], Except.ok ())
  | some e => ([" - Updating references to the modules: Failed: " ++ e], Except.error e)

/-- Embedding of `stage_and_commit` (lines 94 to 104): print-then-re-raise. -/
def stage_and_commit (outcome : Option String) : List String × Except String Unit :=
  match outcome with
  | none => ([" - Staging and committing file: Successful"], Except.ok ())
  | some e => ([" - Staging and committing file: Failed: " ++ e], Except.error e)

/-- Embedding of `push_changes` (lines 107 to 116): print-then-re-raise. -/
def push_changes (outcome : Option String) : List String × Except String Unit :=
  match outcome with
  | none => ([" - Pushing changes: Successful"], Except.ok ())
  | some e => ([" - Pushing changes: Failed: " ++ e], Except.error e)

/-- Embedding of `cleanup_repository` (lines 141 to 152): every exception is
caught and printed; the function never raises. -/
def cleanup_repository (repository : String) (outcome : Option String) : List String :=
  match outcome with
  | none => [" - Cleaning up repository " ++ repository ++ ":Successful"]
  | some e => [" - Cleaning up repository " ++ repository ++ ":Failed: " ++ e]

/-- One pass of the driver loop of `search_and_update_code` (lines 190 to
201) for a single target repository: the seven steps in order, with the
exception of any of the first five steps propagating out of the loop. -/
def processOne (env : String → RepoOutcomes) (repository : String) :
    List String × Except String Unit :=
  let o := env repository
  let log0 := [repository]
  match clone_repository o.clone with
  | (l, Except.error e) => (log0 ++ l, Except.error e)
  | (l1, Except.ok _) =>
    match create_and_switch_branch o.branch with
    | (l, Except.error e) => (log0 ++ l1 ++ l, Except.error e)
    | (l2, Except.ok _) =>
      match update_references_step o.edit with
      | (l, Except.error e) => (log0 ++ l1 ++ l2 ++ l, Except.error e)
      | (l3, Except.ok _) =>
        match stage_and_commit o.commit with
        | (l, Except.error e) => (log0 ++ l1 ++ l2 ++ l3 ++ l, Except.error e)
        | (l4, Except.ok _) =>
          match push_changes o.push with
          | (l, Except.error e) => (log0 ++ l1 ++ l2 ++ l3 ++ l4 ++ l, Except.error e)
          | (l5, Except.ok _) =>
            (log0 ++ l1 ++ l2 ++ l3 ++ l4 ++ l5 ++ create_pr o.prResp
              ++ cleanup_repository ("tmp_" ++ repository) o.cleanup,
              Except.ok ())

/-- The driver loop of `search_and_update_code` over the deduplicated target
repositories: strictly sequential, with no exception handling around the
per-repository passes, so an exception raised in one pass aborts the run. -/
def processRepositories (env : String → RepoOutcomes) :
    List String → List String × Except String Unit
  | [] => ([], Except.ok ())
  | r :: rest =>
    match processOne env r with
    | (l, Except.error e) => (l, Except.error e)
    | (l, Except.ok _) =>
      let tail := processRepositories env rest
      (l ++ tail.1, tail.2)

/-- The first failure among the five steps whose exceptions escape the
driver loop: clone, branch, edit, commit, push. -/
def coreFailure (o : RepoOutcomes) : Option String :=
  o.clone <|> o.branch <|> o.edit <|> o.commit <|> o.push

/-! ## Byte-level literal replace (update_references, lines 69 to 91) -/

/-- The scan of the Python bytes replace method for a non-empty search
sequence: leftmost non-overlapping occurrences of s :: ss are replaced by
repl, every other byte copied unchanged. -/
def replaceGo (s : Nat) (ss repl : List Nat) : List Nat → List Nat
  | [] => []
  | c :: cs =>
    if (s :: ss).isPrefixOf (c :: cs) then
      repl ++ replaceGo s ss repl (cs.drop ss.length)
    else
      c :: replaceGo s ss repl cs
termination_by l => l.length
decreasing_by
  · simp only [List.length_cons, List.length_drop]
    omega
  · simp

/-- Embedding of the Python expression content.replace(search, replace) on
bytes, as performed by `update_references` on each file.  For an empty
search sequence Python inserts the replacement before every byte and at the
end. -/
def bytesReplace (search repl content : List Nat) : List Nat :=
  match search with
  | [] => repl ++ content.foldr (fun c acc => c :: (repl ++ acc)) []
  | s :: ss => replaceGo s ss repl content

/-- Embedding of the file rewriting of `update_references`: every file is
read, its content replaced, and the result written back unconditionally. -/
def update_references (search repl : List Nat) (files : List (String × List Nat)) :
    List (String × List Nat) :=
  files.map (fun f => (f.1, bytesReplace search repl f.2))

/-- Concatenation of segments with a separator sequence between consecutive
segments: the decomposition vocabulary for the byte-replace claim. -/
def joinWith (sep : List Nat) : List (List Nat) → List Nat
  | [] => []
  | [x] => x
  | x :: y :: xs => x ++ sep ++ joinWith sep (y :: xs)

lemma generate_unique_project_keyGo_spec (server : String → Nat)
    (pn ba : String) (shuffles : Nat → String) :
    ∀ (fuel i : Nat) (k : String),
      generate_unique_project_keyGo server pn ba shuffles fuel i = some k →
      check_if_project_exists server k = false := by
  intro fuel
  induction fuel with
  | zero => intro i k h; simp [generate_unique_project_keyGo] at h
  | succ fuel ih =>
    intro i k h
    simp only [generate_unique_project_keyGo] at h
    by_cases hc : check_if_project_exists server
        (strUpper (ba.take 3) ++ "_" ++ strUpper ((shuffles i).take 3)) = true
    · rw [if_pos hc] at h
      exact ih (i + 1) k h
    · rw [if_neg hc] at h
      cases h
      simpa using hc

/-- C4: if the initially derived project key already exists, then
`generate_unique_project_key`, whenever it returns, returns a key for which
the existence check reports false, and in particular never returns the
original colliding key.  Consistency of the existence check during the run
is built into the model: the check is a function of the key. -/
theorem c4_unique_key_avoids_collision (server : String → Nat)
    (pn ba : String) (shuffles : Nat → String) (fuel : Nat) (k : String)
    (horig : check_if_project_exists server (generate_project_key pn ba) = true)
    (hret : generate_unique_project_key server pn ba shuffles fuel = some k) :
    check_if_project_exists server k = false ∧ k ≠ generate_project_key pn ba := by
  have hk : check_if_project_exists server k = false :=
    generate_unique_project_keyGo_spec server pn ba shuffles fuel 0 k hret
  refine ⟨hk, ?_⟩
  intro heq
  rw [heq, horig] at hk
  exact Bool.noConfusion hk

/-- Witness for C4: a server on which exactly the key FIN_FOU exists; the
first shuffle already yields a fresh key, which is returned, passes the
existence check negatively and differs from the original key. -/
theorem c4_unique_key_avoids_collision_witness :
    check_if_project_exists (fun key => if key = "FIN_FOU" then 200 else 404)
        (generate_project_key "Foundation" "Finance") = true ∧
      (check_if_project_exists (fun key => if key = "FIN_FOU" then 200 else 404)
          "FIN_OUN" = false ∧
        "FIN_OUN" ≠ generate_project_key "Foundation" "Finance") :=
  ⟨by decide,
    c4_unique_key_avoids_collision (fun key => if key = "FIN_FOU" then 200 else 404)
      "Foundation" "Finance" (fun _ => "oundationF") 1 "FIN_OUN" (by decide) (by decide)⟩

/-- C9: termination of `generate_unique_project_key` is not guaranteed: under
an existence check that reports every key as existing, the retry loop has not
returned after any number of iterations, whatever the stream of shuffles. -/
theorem c9_unbounded_retry_nontermination (server : String → Nat)
    (pn ba : String) (shuffles : Nat → String)
    (h : ∀ k, check_if_project_exists server k = true) :
    ∀ fuel i, generate_unique_project_keyGo server pn ba shuffles fuel i = none := by
  intro fuel
  induction fuel with
  | zero => intro i; simp [generate_unique_project_keyGo]
  | succ fuel ih =>
    intro i
    simp only [generate_unique_project_keyGo, h, if_true]
    exact ih (i + 1)

/-- Witness for C9: a concrete always-200 server under which the loop is
still running after 3 iterations, with the identity permutation as every
shuffle. -/
theorem c9_unbounded_retry_nontermination_witness :
    generate_unique_project_keyGo (fun _ => 200) "Foundation" "Finance"
      (fun _ => "Foundation") 3 0 = none :=
  c9_unbounded_retry_nontermination (fun _ => 200) "Foundation" "Finance"
    (fun _ => "Foundation") (fun _ => rfl) 3 0

/-- C5 counterexample: on a non-success status, `api_get_request` raises an
exception whose message carries the status code but not the raw response
body: two responses with the same status and different bodies raise the very
same error, and `create_pr` on a non-201 status does not fail at all, merely
returning its printed lines. -/
theorem c5_counterexample :
    api_get_request { status := 500, text := "AAA", body := () }
        = Except.error "Failed to retrieve data. Status code: 500" ∧
      api_get_request { status := 500, text := "BBB", body := () }
        = Except.error "Failed to retrieve data. Status code: 500" ∧
      api_get_request (β := Unit) { status := 500, text := "AAA", body := () }
        = api_get_request { status := 500, text := "BBB", body := () } ∧
      create_pr { status := 500, text := "boom", body := { linksHtmlHref := "u" } }
        = [" - Creating PR: Failed: 500 | boom"] := by
  refine ⟨?_, ?_, ?_, ?_⟩ <;> rfl

/-- C5 amended: on any status other than 200, `api_get_request` fails with an
error carrying the status code only (the raw response body is not part of the
error), and `create_pr` on any status other than 201 does not fail: it prints
the status code and raw body and returns normally. -/
theorem c5_amended_error_carries_status_only {β : Type} (r : HttpResp β)
    (p : HttpResp PrData) :
    (r.status ≠ 200 →
      api_get_request r
        = Except.error ("Failed to retrieve data. Status code: " ++ toString r.status)) ∧
    (p.status ≠ 201 →
      create_pr p = [" - Creating PR: Failed: " ++ toString p.status ++ " | " ++ p.text]) := by
  constructor
  · intro h
    simp [api_get_request, h]
  · intro h
    simp [create_pr, h]

/-- Witness for C5 amended, at a concrete 500 response for each primitive. -/
theorem c5_amended_error_carries_status_only_witness :
    api_get_request (β := Unit) { status := 500, text := "AAA", body := () }
        = Except.error ("Failed to retrieve data. Status code: " ++ toString 500) ∧
      create_pr { status := 500, text := "boom", body := { linksHtmlHref := "u" } }
        = [" - Creating PR: Failed: " ++ toString 500 ++ " | " ++ "boom"] :=
  ⟨(c5_amended_error_carries_status_only
      { status := 500, text := "AAA", body := () }
      { status := 500, text := "boom", body := { linksHtmlHref := "u" } }).1 (by decide),
   (c5_amended_error_carries_status_only (β := Unit)
      { status := 500, text := "AAA", body := () }
      { status := 500, text := "boom", body := { linksHtmlHref := "u" } }).2 (by decide)⟩

/-- C7 counterexample: a non-200 default-reviewers response whose raw body
is not JSON.  The claim predicts that the failing read prints an error,
returns an empty result and lets the other two reads run; instead the source
decodes the body before checking the status, so the read raises
JSONDecodeError and the whole run aborts with nothing reported, well-formed
200 responses for the other two reads notwithstanding. -/
theorem c7_counterexample :
    get_default_reviewers { status := 500, text := "<html>error</html>", body := none }
        = ([], Except.error "JSONDecodeError: Expecting value") ∧
      runInspector { status := 500, text := "<html>error</html>", body := none }
          { status := 200, text := "", body := some plainMergeBody }
          { status := 200, text := "", body := some { values := some [], next := none } }
        = ([], Except.error "JSONDecodeError: Expecting value") :=
  ⟨rfl, rfl⟩

/-- C7 amended: each inspector read decodes the response body before checking
the status, so a failing read is contained only when its body parses as
JSON: in that case a non-200 read prints an error and contributes the empty
result for that read alone, and whenever each read on its own yields a
result the sequential main program reports all three; but a response whose
body is not JSON makes the read raise JSONDecodeError, aborting the run and
preventing the later reads (stated for the first read, which precedes the
other two). -/
theorem c7_amended_reads_independent_when_parseable
    (r1 : HttpResp (Option (List CondItem))) (r2 : HttpResp (Option MergeBody))
    (r3 : HttpResp (Option RestrBody)) :
    (r1.body ≠ none → r1.status ≠ 200 →
      get_default_reviewers r1
        = (["Failed to fetch default reviewers. Status code: " ++ toString r1.status],
            Except.ok [])) ∧
    (r2.body ≠ none → r2.status ≠ 200 →
      get_merge_checks r2
        = (["Failed to fetch repository settings. Status code: " ++ toString r2.status],
            Except.ok [])) ∧
    (r3.body ≠ none → r3.status ≠ 200 →
      get_branch_restrictions r3
        = (["Failed to fetch branch restrictions. Status code: " ++ toString r3.status],
            Except.ok [])) ∧
    (∀ a b c, (get_default_reviewers r1).2 = Except.ok a →
      (get_merge_checks r2).2 = Except.ok b →
      (get_branch_restrictions r3).2 = Except.ok c →
      (runInspector r1 r2 r3).2
        = Except.ok { defaultReviewers := a, mergeChecks := b, branchRestrictions := c }) ∧
    (r1.body = none →
      runInspector r1 r2 r3 = ([], Except.error "JSONDecodeError: Expecting value")) := by
  refine ⟨?_, ?_, ?_, ?_, ?_⟩
  · intro hb h
    rcases e : r1.body with _ | b1
    · exact absurd e hb
    · simp [get_default_reviewers, e, h]
  · intro hb h
    rcases e : r2.body with _ | b2
    · exact absurd e hb
    · simp [get_merge_checks, e, h]
  · intro hb h
    rcases e : r3.body with _ | b3
    · exact absurd e hb
    · simp [get_branch_restrictions, e, h]
  · intro a b c h1 h2 h3
    unfold runInspector
    rcases e1 : get_default_reviewers r1 with ⟨l1, o1⟩
    rcases e2 : get_merge_checks r2 with ⟨l2, o2⟩
    rcases e3 : get_branch_restrictions r3 with ⟨l3, o3⟩
    rw [e1] at h1; rw [e2] at h2; rw [e3] at h3
    simp only at h1 h2 h3
    subst h1 h2 h3
    simp
  · intro hb
    simp [runInspector, get_default_reviewers, hb]

/-- Witness for C7 amended: with JSON bodies, each status-500 read returns
its printed error line with an empty result; a successful triple is reported
whole; and a status-500 first read whose body is not JSON aborts the run
before the other two well-formed reads. -/
theorem c7_amended_reads_independent_when_parseable_witness :
    (get_default_reviewers { status := 500, text := "", body := some [] }
        = (["Failed to fetch default reviewers. Status code: " ++ toString 500],
            Except.ok [])) ∧
      (get_merge_checks { status := 500, text := "", body := some plainMergeBody }
        = (["Failed to fetch repository settings. Status code: " ++ toString 500],
            Except.ok [])) ∧
      (get_branch_restrictions
          { status := 500, text := "", body := some { values := none, next := none } }
        = (["Failed to fetch branch restrictions. Status code: " ++ toString 500],
            Except.ok [])) ∧
      (runInspector { status := 200, text := "", body := some [{ reviewers := [] }] }
          { status := 200, text := "", body := some plainMergeBody }
          { status := 200, text := "", body := some { values := some [], next := none } }).2
        = Except.ok { defaultReviewers := [], mergeChecks := plainMergeChecks,
                      branchRestrictions := [] } ∧
      runInspector { status := 500, text := "x", body := none }
          { status := 200, text := "", body := some plainMergeBody }
          { status := 200, text := "", body := some { values := some [], next := none } }
        = ([], Except.error "JSONDecodeError: Expecting value") := by
  have h := c7_amended_reads_independent_when_parseable
    { status := 500, text := "", body := some ([] : List CondItem) }
    { status := 500, text := "", body := some plainMergeBody }
    { status := 500, text := "", body := some { values := none, next := none } }
  have h2 := (c7_amended_reads_independent_when_parseable
    { status := 200, text := "", body := some [{ reviewers := [] }] }
    { status := 200, text := "", body := some plainMergeBody }
    { status := 200, text := "", body := some { values := some [], next := none } }).2.2.2.1
    [] plainMergeChecks [] rfl rfl rfl
  have h3 := (c7_amended_reads_independent_when_parseable
    { status := 500, text := "x", body := none }
    { status := 200, text := "", body := some plainMergeBody }
    { status := 200, text := "", body := some { values := some [], next := none } }).2.2.2.2
    rfl
  exact ⟨h.1 (by simp) (by decide), h.2.1 (by simp) (by decide),
    h.2.2.1 (by simp) (by decide), h2, h3⟩

/-- C10: on a 200 default-reviewers response, only the first condition of the
response array contributes reviewers, later conditions being ignored; and a
200 response with an empty array raises IndexError instead of yielding an
empty list. -/
theorem c10_default_reviewers_first_condition_only
    (r : HttpResp (Option (List CondItem))) :
    (∀ c0 rest, r.status = 200 → r.body = some (c0 :: rest) →
      (get_default_reviewers r).2 = Except.ok (c0.reviewers.map reviewerInfoOf)) ∧
    (r.status = 200 → r.body = some [] →
      (get_default_reviewers r).2 = Except.error "IndexError: list index out of range") := by
  constructor
  · intro c0 rest hs hb
    simp [get_default_reviewers, hs, hb]
  · intro hs hb
    simp [get_default_reviewers, hs, hb]

/-- Witness for C10: a 200 response holding two conditions returns only the
first condition's reviewer, and a 200 response with an empty array errors. -/
theorem c10_default_reviewers_first_condition_only_witness :
    (get_default_reviewers
        { status := 200, text := "",
          body := some [{ reviewers := [{ displayName := some "Alice", emailAddress := some "a@x" }] },
                        { reviewers := [{ displayName := some "Bob", emailAddress := none }] }] }).2
        = Except.ok [{ displayName := "Alice", emailAddress := "a@x" }] ∧
      (get_default_reviewers { status := 200, text := "", body := some [] }).2
        = Except.error "IndexError: list index out of range" :=
  ⟨(c10_default_reviewers_first_condition_only
      { status := 200, text := "",
        body := some [{ reviewers := [{ displayName := some "Alice", emailAddress := some "a@x" }] },
                      { reviewers := [{ displayName := some "Bob", emailAddress := none }] }] }).1
      { reviewers := [{ displayName := some "Alice", emailAddress := some "a@x" }] }
      [{ reviewers := [{ displayName := some "Bob", emailAddress := none }] }] rfl rfl,
   (c10_default_reviewers_first_condition_only
      { status := 200, text := "", body := some [] }).2 rfl rfl⟩

lemma processOne_snd (env : String → RepoOutcomes) (r : String) :
    (processOne env r).2 = match coreFailure (env r) with
      | none => Except.ok ()
      | some m => Except.error m := by
  unfold processOne coreFailure clone_repository create_and_switch_branch
    update_references_step stage_and_commit push_changes
  rcases env r with ⟨c, b, ed, cm, p, pr, cl⟩
  cases c <;> cases b <;> cases ed <;> cases cm <;> cases p <;>
    simp [HOrElse.hOrElse, OrElse.orElse, Option.orElse]

lemma processRepositories_all_ok (env : String → RepoOutcomes) :
    ∀ repos : List String, (∀ p ∈ repos, coreFailure (env p) = none) →
      (processRepositories env repos).2 = Except.ok () := by
  intro repos
  induction repos with
  | nil => intro _; rfl
  | cons r rest ih =>
    intro h
    have hr : coreFailure (env r) = none := h r (List.mem_cons_self r rest)
    have h2 : (processOne env r).2 = Except.ok () := by
      rw [processOne_snd, hr]
    rcases e : processOne env r with ⟨l, o⟩
    rw [e] at h2
    simp only at h2
    subst h2
    simp only [processRepositories, e]
    exact ih (fun p hp => h p (List.mem_cons_of_mem r hp))

lemma processRepositories_abort (env : String → RepoOutcomes) (r : String)
    (m : String) (hm : coreFailure (env r) = some m) :
    ∀ (pre post : List String), (∀ p ∈ pre, coreFailure (env p) = none) →
      processRepositories env (pre ++ r :: post) = processRepositories env (pre ++ [r]) ∧
        (processRepositories env (pre ++ r :: post)).2 = Except.error m := by
  intro pre
  induction pre with
  | nil =>
    intro post _
    have h2 : (processOne env r).2 = Except.error m := by
      rw [processOne_snd, hm]
    rcases e : processOne env r with ⟨l, o⟩
    rw [e] at h2
    simp only at h2
    subst h2
    constructor
    · simp only [List.nil_append, processRepositories, e]
    · simp only [List.nil_append, processRepositories, e]
  | cons q rest ih =>
    intro post h
    have hq : coreFailure (env q) = none := h q (List.mem_cons_self q rest)
    have h2 : (processOne env q).2 = Except.ok () := by
      rw [processOne_snd, hq]
    rcases e : processOne env q with ⟨l, o⟩
    rw [e] at h2
    simp only at h2
    subst h2
    have := ih post (fun p hp => h p (List.mem_cons_of_mem q hp))
    constructor
    · simp only [List.cons_append, processRepositories, e, List.append_eq, this.1]
    · simp only [List.cons_append, processRepositories, e, List.append_eq]
      rcases e2 : processRepositories env (rest ++ r :: post) with ⟨l2, o2⟩
      rw [e2] at this
      simpa using this.2

/-- C2 counterexample: with two discovered targets, the first failing at the
branch step and the second free of any failure, the driver loop does not
advance to the second target: the branch exception propagates and aborts the
run, the log ending at the failed step with no line for the second target. -/
theorem c2_counterexample :
    processRepositories
        (fun r =>
          if r = "repo-one" then
            { clone := none, branch := some "boom", edit := none, commit := none,
              push := none,
              prResp := { status := 201, text := "", body := { linksHtmlHref := "u" } },
              cleanup := none }
          else
            { clone := none, branch := none, edit := none, commit := none,
              push := none,
              prResp := { status := 201, text := "", body := { linksHtmlHref := "u" } },
              cleanup := none })
        ["repo-one", "repo-two"]
      = (["repo-one", " - Cloning repository locally: Successful",
          " - Creating and switching to a new branch: Failed: boom"],
         Except.error "boom") := by
  rfl

/-- C2 amended: in the bulk mutation workflow, a failure in any of the clone,
branch, edit, commit, or push steps is printed and re-raised, aborting the
entire run at that target (later targets are never consulted); only the
open-change-request and cleanup steps are non-fatal, so the loop runs to
completion exactly when every target's five fallible local steps succeed. -/
theorem c2_amended_any_core_failure_aborts (env : String → RepoOutcomes) :
    (∀ repos : List String, (∀ p ∈ repos, coreFailure (env p) = none) →
      (processRepositories env repos).2 = Except.ok ()) ∧
    (∀ (pre : List String) (r : String) (post : List String) (m : String),
      (∀ p ∈ pre, coreFailure (env p) = none) → coreFailure (env r) = some m →
      processRepositories env (pre ++ r :: post) = processRepositories env (pre ++ [r]) ∧
        (processRepositories env (pre ++ r :: post)).2 = Except.error m) := by
  constructor
  · exact processRepositories_all_ok env
  · intro pre r post m hpre hm
    exact processRepositories_abort env r m hm pre post hpre

/-- Witness for C2 amended: a run over one healthy target succeeds, and a run
with a commit failure at the first of two targets aborts with that error,
the second target unreached. -/
theorem c2_amended_any_core_failure_aborts_witness :
    (processRepositories
        (fun _ =>
          { clone := none, branch := none, edit := none, commit := none, push := none,
            prResp := { status := 500, text := "no", body := { linksHtmlHref := "u" } },
            cleanup := some "locked" })
        ["repo-one"]).2 = Except.ok () ∧
      (processRepositories
          (fun _ =>
            { clone := none, branch := none, edit := none, commit := some "conflict",
              push := none,
              prResp := { status := 201, text := "", body := { linksHtmlHref := "u" } },
              cleanup := none })
          ([] ++ "repo-one" :: ["repo-two"])).2 = Except.error "conflict" :=
  ⟨(c2_amended_any_core_failure_aborts
      (fun _ =>
        { clone := none, branch := none, edit := none, commit := none, push := none,
          prResp := { status := 500, text := "no", body := { linksHtmlHref := "u" } },
          cleanup := some "locked" })).1 ["repo-one"] (by decide),
   ((c2_amended_any_core_failure_aborts
      (fun _ =>
        { clone := none, branch := none, edit := none, commit := some "conflict",
          push := none,
          prResp := { status := 201, text := "", body := { linksHtmlHref := "u" } },
          cleanup := none })).2 [] "repo-one" ["repo-two"] "conflict"
      (by intro p hp; cases hp) (by decide)).2⟩

lemma processRepoItems_spec (gserver : String → HttpResp (AuditPage GroupPermItem))
    (burl ws : String) (G : String → List GroupPermItem)
    (hG : ∀ s, (gserver (repoGroupsEndpoint burl ws s)).status = 200 ∧
      (gserver (repoGroupsEndpoint burl ws s)).body.values = some (G s)) :
    ∀ items : List RepoItem,
      processRepoItems gserver burl ws items = Except.ok (items.map (repoInfoOf G)) := by
  intro items
  induction items with
  | nil => rfl
  | cons item rest ih =>
    obtain ⟨hs, hv⟩ := hG item.slug
    simp [processRepoItems, api_get_request, hs, hv, ih, repoInfoOf, bind, Except.bind]

lemma processProjItems_spec (gserver : String → HttpResp (AuditPage GroupPermItem))
    (burl ws : String) (G : String → List GroupPermItem)
    (hG : ∀ k, (gserver (projectGroupsEndpoint burl ws k)).status = 200 ∧
      (gserver (projectGroupsEndpoint burl ws k)).body.values = some (G k)) :
    ∀ items : List ProjItem,
      processProjItems gserver burl ws items = Except.ok (items.map (projInfoOf G)) := by
  intro items
  induction items with
  | nil => rfl
  | cons item rest ih =>
    obtain ⟨hs, hv⟩ := hG item.key
    simp [processProjItems, api_get_request, hs, hv, ih, projInfoOf, bind, Except.bind]

lemma get_repositoriesGo_chain (server : String → HttpResp (AuditPage RepoItem))
    (gserver : String → HttpResp (AuditPage GroupPermItem))
    (burl ws : String) (G : String → List GroupPermItem)
    (hG : ∀ s, (gserver (repoGroupsEndpoint burl ws s)).status = 200 ∧
      (gserver (repoGroupsEndpoint burl ws s)).body.values = some (G s)) :
    ∀ (pages : List (String × List RepoItem)) (u : String) (vs : List RepoItem)
      (acc : List RepoInfo) (k fuel : Nat),
      chainPages server ((u, vs) :: pages) →
      pages.length + 1 ≤ fuel →
      get_repositoriesGo server gserver burl ws fuel u acc k
        = (k + (pages.length + 1),
            some (Except.ok (acc ++ ((vs :: pages.map Prod.snd).flatten.map (repoInfoOf G))))) := by
  intro pages
  induction pages with
  | nil =>
    intro u vs acc k fuel hchain hfuel
    obtain ⟨hs, hv, hn, -⟩ := hchain
    cases fuel with
    | zero => omega
    | succ fuel =>
      simp only [List.head?_nil, Option.map_none] at hn
      simp [get_repositoriesGo, api_get_request, hs, hv, hn,
        processRepoItems_spec gserver burl ws G hG vs]
  | cons page rest ih =>
    intro u vs acc k fuel hchain hfuel
    obtain ⟨hs, hv, hn, hrest⟩ := hchain
    cases fuel with
    | zero => simp at hfuel
    | succ fuel =>
      rcases page with ⟨u1, vs1⟩
      simp only [List.head?_cons, Option.map_some] at hn
      have hfuel1 : rest.length + 1 ≤ fuel := by
        simp only [List.length_cons] at hfuel
        omega
      have step := ih u1 vs1 (acc ++ vs.map (repoInfoOf G)) (k + 1) fuel hrest hfuel1
      have ha : api_get_request (server u) = Except.ok (server u).body := by
        simp [api_get_request, hs]
      have hn2 : (server u).body.next = some u1 := by simpa using hn
      simp only [get_repositoriesGo, ha, hv, hn2,
        processRepoItems_spec gserver burl ws G hG vs, step, Prod.mk.injEq]
      constructor
      · simp only [List.length_cons]
        omega
      · simp [List.map_append, List.append_assoc]

lemma get_projectsGo_chain (pserver : String → HttpResp (AuditPage ProjItem))
    (gserver : String → HttpResp (AuditPage GroupPermItem))
    (burl ws : String) (G : String → List GroupPermItem)
    (hG : ∀ key, (gserver (projectGroupsEndpoint burl ws key)).status = 200 ∧
      (gserver (projectGroupsEndpoint burl ws key)).body.values = some (G key)) :
    ∀ (pages : List (String × List ProjItem)) (u : String) (vs : List ProjItem)
      (acc : List ProjInfo) (k fuel : Nat),
      chainPages pserver ((u, vs) :: pages) →
      vs ≠ [] → (∀ p ∈ pages, p.2 ≠ []) →
      pages.length + 1 ≤ fuel →
      get_projectsGo pserver gserver burl ws fuel u acc k
        = (k + (pages.length + 1),
            some (Except.ok (acc ++ ((vs :: pages.map Prod.snd).flatten.map (projInfoOf G))))) := by
  intro pages
  induction pages with
  | nil =>
    intro u vs acc k fuel hchain hne _ hfuel
    obtain ⟨hs, hv, hn, -⟩ := hchain
    cases fuel with
    | zero => omega
    | succ fuel =>
      simp only [List.head?_nil, Option.map_none] at hn
      simp [get_projectsGo, api_get_request, hs, hv, hn, hne,
        processProjItems_spec gserver burl ws G hG vs]
  | cons page rest ih =>
    intro u vs acc k fuel hchain hne hall hfuel
    obtain ⟨hs, hv, hn, hrest⟩ := hchain
    cases fuel with
    | zero => simp at hfuel
    | succ fuel =>
      rcases page with ⟨u1, vs1⟩
      simp only [List.head?_cons, Option.map_some] at hn
      have hfuel1 : rest.length + 1 ≤ fuel := by
        simp only [List.length_cons] at hfuel
        omega
      have hne1 : vs1 ≠ [] := hall (u1, vs1) (List.mem_cons_self _ _)
      have hall1 : ∀ p ∈ rest, p.2 ≠ [] := fun p hp => hall p (List.mem_cons_of_mem _ hp)
      have step := ih u1 vs1 (acc ++ vs.map (projInfoOf G)) (k + 1) fuel hrest hne1 hall1 hfuel1
      have ha : api_get_request (pserver u) = Except.ok (pserver u).body := by
        simp [api_get_request, hs]
      have hn2 : (pserver u).body.next = some u1 := by simpa using hn
      simp only [get_projectsGo, ha, hv, hn2, if_neg hne,
        processProjItems_spec gserver burl ws G hG vs, step, Prod.mk.injEq]
      constructor
      · simp only [List.length_cons]
        omega
      · simp [List.map_append, List.append_assoc]

/-- C1 counterexample: a projects endpoint whose single page has an empty
values array and no next field.  The claim predicts the empty concatenation
after exactly 1 fetch; instead `get_projects`, because the endpoint variable
is only reassigned inside the per-item loop, refetches the same page forever:
after 5 units of fuel it has performed 5 fetches and not returned. -/
theorem c1_counterexample :
    get_projects
        (fun _ => { status := 200, text := "", body := { values := some [], next := none } })
        (fun _ => { status := 200, text := "", body := { values := some [], next := none } })
        "b" "w" 5
      = (5, none) := by
  rfl

/-- C1 amended: over any chain of N pages ending in a page with no next
field, `get_repositories` returns the concatenation of all pages item arrays
in page order after exactly N fetches of the paginated endpoint, empty pages
included; `get_projects` does the same only when every page's item array is
non-empty (an empty page makes its loop refetch the same page forever). -/
theorem c1_amended_collect_concatenation :
    (∀ (server : String → HttpResp (AuditPage RepoItem))
        (gserver : String → HttpResp (AuditPage GroupPermItem))
        (burl ws : String) (G : String → List GroupPermItem)
        (vs0 : List RepoItem) (rest : List (String × List RepoItem)) (fuel : Nat),
      (∀ s, (gserver (repoGroupsEndpoint burl ws s)).status = 200 ∧
        (gserver (repoGroupsEndpoint burl ws s)).body.values = some (G s)) →
      chainPages server ((repositoriesEndpoint burl ws, vs0) :: rest) →
      rest.length + 1 ≤ fuel →
      get_repositories server gserver burl ws fuel
        = (rest.length + 1,
            some (Except.ok ((vs0 :: rest.map Prod.snd).flatten.map (repoInfoOf G))))) ∧
    (∀ (pserver : String → HttpResp (AuditPage ProjItem))
        (gserver : String → HttpResp (AuditPage GroupPermItem))
        (burl ws : String) (G : String → List GroupPermItem)
        (vs0 : List ProjItem) (rest : List (String × List ProjItem)) (fuel : Nat),
      (∀ key, (gserver (projectGroupsEndpoint burl ws key)).status = 200 ∧
        (gserver (projectGroupsEndpoint burl ws key)).body.values = some (G key)) →
      chainPages pserver ((projectsEndpoint burl ws, vs0) :: rest) →
      vs0 ≠ [] → (∀ p ∈ rest, p.2 ≠ []) →
      rest.length + 1 ≤ fuel →
      get_projects pserver gserver burl ws fuel
        = (rest.length + 1,
            some (Except.ok ((vs0 :: rest.map Prod.snd).flatten.map (projInfoOf G))))) := by
  constructor
  · intro server gserver burl ws G vs0 rest fuel hG hchain hfuel
    have := get_repositoriesGo_chain server gserver burl ws G hG rest
      (repositoriesEndpoint burl ws) vs0 [] 0 fuel hchain hfuel
    simpa [get_repositories] using this
  · intro pserver gserver burl ws G vs0 rest fuel hG hchain hne hall hfuel
    have := get_projectsGo_chain pserver gserver burl ws G hG rest
      (projectsEndpoint burl ws) vs0 [] 0 fuel hchain hne hall hfuel
    simpa [get_projects] using this

/-- Witness for C1 amended: a one-page chain served by constant servers; each
collector returns its single page's records after exactly one fetch. -/
theorem c1_amended_collect_concatenation_witness :
    get_repositories oneRepoPageServer oneGroupPageServer "b" "w" 1
        = (1, some (Except.ok [{ slug := "r1", description := "d",
                                 main_branchname := "main", is_private := true,
                                 project_key := "PK",
                                 groups := [{ slug := "g1", permission := "write" }] }])) ∧
      get_projects oneProjPageServer oneGroupPageServer "b" "w" 1
        = (1, some (Except.ok [{ name := "n", key := "K", description := "d",
                                 groups := [{ slug := "g1", permission := "write" }] }])) :=
  ⟨c1_amended_collect_concatenation.1 oneRepoPageServer oneGroupPageServer "b" "w"
      (fun _ => [{ groupSlug := "g1", permission := "write" }])
      [{ slug := "r1", description := "d", mainbranchName := "main",
         isPrivate := true, projectKey := "PK" }] [] 1
      (fun _ => ⟨rfl, rfl⟩) (by simp [chainPages, oneRepoPageServer]) (by simp),
   c1_amended_collect_concatenation.2 oneProjPageServer oneGroupPageServer "b" "w"
      (fun _ => [{ groupSlug := "g1", permission := "write" }])
      [{ name := "n", key := "K", description := "d" }] [] 1
      (fun _ => ⟨rfl, rfl⟩) (by simp [chainPages, oneProjPageServer]) (by simp) (by simp)
      (by simp)⟩

lemma extractRepos_spec (E : SearchItem → String) :
    ∀ items : List SearchItem,
      (∀ i ∈ items, i.hrefPathSegments[4]? = some (E i)) →
      extractRepos items = Except.ok (items.map E) := by
  intro items
  induction items with
  | nil => intro _; rfl
  | cons i rest ih =>
    intro h
    have hi := h i (List.mem_cons_self i rest)
    have hrest := ih (fun j hj => h j (List.mem_cons_of_mem i hj))
    simp [extractRepos, extractRepo, hi, hrest, bind, Except.bind]

lemma searchCollectGo_chain (server : String → HttpResp (AuditPage SearchItem))
    (E : SearchItem → String) :
    ∀ (pages : List (String × Option (List SearchItem))) (u : String)
      (vs : Option (List SearchItem)) (acc : List String) (k fuel : Nat),
      chainPagesOpt server ((u, vs) :: pages) →
      (∀ i ∈ (((u, vs) :: pages).map (fun p => p.2.getD [])).flatten,
        i.hrefPathSegments[4]? = some (E i)) →
      pages.length + 1 ≤ fuel →
      searchCollectGo server fuel u acc k
        = (k + (pages.length + 1),
            some (Except.ok
              (acc ++ ((((u, vs) :: pages).map (fun p => p.2.getD [])).flatten.map E)))) := by
  intro pages
  induction pages with
  | nil =>
    intro u vs acc k fuel hchain hE hfuel
    obtain ⟨hs, hv, hn, -⟩ := hchain
    cases fuel with
    | zero => omega
    | succ fuel =>
      simp only [List.head?_nil, Option.map_none] at hn
      have hE1 : ∀ i ∈ vs.getD [], i.hrefPathSegments[4]? = some (E i) := by
        intro i hi
        exact hE i (by simpa using hi)
      simp [searchCollectGo, hs, hv, hn, extractRepos_spec E (vs.getD []) hE1]
  | cons page rest ih =>
    intro u vs acc k fuel hchain hE hfuel
    obtain ⟨hs, hv, hn, hrest⟩ := hchain
    cases fuel with
    | zero => simp at hfuel
    | succ fuel =>
      rcases page with ⟨u1, vs1⟩
      have hn2 : (server u).body.next = some u1 := by simpa using hn
      have hfuel1 : rest.length + 1 ≤ fuel := by
        simp only [List.length_cons] at hfuel
        omega
      have hE0 : ∀ i ∈ vs.getD [], i.hrefPathSegments[4]? = some (E i) := by
        intro i hi
        exact hE i (by simp [hi])
      have hE1 : ∀ i ∈ (((u1, vs1) :: rest).map (fun p => p.2.getD [])).flatten,
          i.hrefPathSegments[4]? = some (E i) := by
        intro i hi
        refine hE i ?_
        simp only [List.map_cons, List.flatten_cons, List.mem_append]
        right
        simpa using hi
      have step := ih u1 vs1 (acc ++ (vs.getD []).map E) (k + 1) fuel hrest hE1 hfuel1
      simp only [searchCollectGo, hs, if_pos rfl, if_true, hv, hn2,
        extractRepos_spec E (vs.getD []) hE0, step, Prod.mk.injEq]
      constructor
      · simp only [List.length_cons]
        omega
      · simp [List.map_append, List.append_assoc]

/-- C3 counterexample: an audit page response lacking the values field.  The
claim predicts the response is treated as an empty page and the collection
proceeds; instead `get_repositories` raises KeyError and the fetch pass
fails after the first fetch. -/
theorem c3_counterexample :
    get_repositories noValuesRepoServer oneGroupPageServer "b" "w" 5
      = (1, some (Except.error "KeyError: values")) := by
  rfl

/-- C3 amended: the code-search collector reads the items field with an
empty-list default, so a page response lacking values contributes no items
and next-page handling proceeds normally; the audit collectors instead
subscript the missing field, raising KeyError and failing the fetch pass. -/
theorem c3_amended_missing_values_policy :
    (∀ (server : String → HttpResp (AuditPage SearchItem))
        (base_endpoint ws : String) (E : SearchItem → String)
        (vs0 : Option (List SearchItem))
        (rest : List (String × Option (List SearchItem))) (fuel : Nat),
      chainPagesOpt server ((searchEndpoint base_endpoint ws, vs0) :: rest) →
      (∀ i ∈ (((searchEndpoint base_endpoint ws, vs0) :: rest).map
          (fun p => p.2.getD [])).flatten,
        i.hrefPathSegments[4]? = some (E i)) →
      rest.length + 1 ≤ fuel →
      searchCollect server base_endpoint ws fuel
        = (rest.length + 1,
            some (Except.ok ((((searchEndpoint base_endpoint ws, vs0) :: rest).map
              (fun p => p.2.getD [])).flatten.map E)))) ∧
    (∀ (server : String → HttpResp (AuditPage RepoItem))
        (gserver : String → HttpResp (AuditPage GroupPermItem))
        (burl ws : String) (fuel : Nat),
      1 ≤ fuel →
      (server (repositoriesEndpoint burl ws)).status = 200 →
      (server (repositoriesEndpoint burl ws)).body.values = none →
      get_repositories server gserver burl ws fuel
        = (1, some (Except.error "KeyError: values"))) := by
  constructor
  · intro server be ws E vs0 rest fuel hchain hE hfuel
    have := searchCollectGo_chain server E rest (searchEndpoint be ws) vs0 [] 0 fuel
      hchain hE hfuel
    simpa [searchCollect] using this
  · intro server gserver burl ws fuel hfuel hs hv
    cases fuel with
    | zero => omega
    | succ fuel =>
      have ha : api_get_request (server (repositoriesEndpoint burl ws))
          = Except.ok (server (repositoriesEndpoint burl ws)).body := by
        simp [api_get_request, hs]
      simp [get_repositories, get_repositoriesGo, ha, hv]

/-- Witness for C3 amended: a search page with a missing values field yields
the empty collection after one fetch, while the repositories collector on the
same kind of page raises KeyError. -/
theorem c3_amended_missing_values_policy_witness :
    searchCollect noValuesSearchServer "b" "w" 1 = (1, some (Except.ok [])) ∧
      get_repositories noValuesRepoServer oneGroupPageServer "b" "w" 1
        = (1, some (Except.error "KeyError: values")) :=
  ⟨c3_amended_missing_values_policy.1 noValuesSearchServer "b" "w"
      (fun _ => "") none [] 1
      (by simp [chainPagesOpt, noValuesSearchServer]) (by simp) (by simp),
   c3_amended_missing_values_policy.2 noValuesRepoServer oneGroupPageServer
      "b" "w" 1 (by simp) rfl rfl⟩

lemma joinWith_cons_ne (sep x : List Nat) (l : List (List Nat)) (h : l ≠ []) :
    joinWith sep (x :: l) = x ++ sep ++ joinWith sep l := by
  cases l with
  | nil => exact absurd rfl h
  | cons y t => rfl

lemma joinWith_cons_prefix (sep x : List Nat) (l : List (List Nat)) :
    ∃ t, joinWith sep (x :: l) = x ++ t := by
  cases l with
  | nil => exact ⟨[], by simp [joinWith]⟩
  | cons y t => exact ⟨sep ++ joinWith sep (y :: t), by simp [joinWith, List.append_assoc]⟩

lemma joinWith_cons_head_cons (sep : List Nat) (c : Nat) (x : List Nat)
    (l : List (List Nat)) :
    joinWith sep ((c :: x) :: l) = c :: joinWith sep (x :: l) := by
  cases l with
  | nil => rfl
  | cons y t => simp [joinWith, List.cons_append]

lemma replaceGo_decomp (s : Nat) (ss repl : List Nat) :
    ∀ (n : Nat) (content : List Nat), content.length ≤ n →
      ∃ segs : List (List Nat),
        segs ≠ [] ∧ content = joinWith (s :: ss) segs ∧
        replaceGo s ss repl content = joinWith repl segs ∧
        ∀ seg ∈ segs, ¬ (s :: ss) <:+: seg := by
  intro n
  induction n with
  | zero =>
    intro content hlen
    have hc : content = [] := List.eq_nil_of_length_eq_zero (Nat.le_zero.mp hlen)
    subst hc
    exact ⟨[[]], by simp, rfl, by simp [replaceGo, joinWith], by simp [List.infix_nil]⟩
  | succ n ih =>
    intro content hlen
    match content with
    | [] =>
      exact ⟨[[]], by simp, rfl, by simp [replaceGo, joinWith], by simp [List.infix_nil]⟩
    | c :: cs =>
      by_cases hp : (s :: ss).isPrefixOf (c :: cs)
      · have hpre : (s :: ss) <+: (c :: cs) := List.isPrefixOf_iff_prefix.mp hp
        obtain ⟨t, ht⟩ := hpre
        have htdrop : cs.drop ss.length = t := by
          have := congrArg (List.drop (s :: ss).length) ht
          rw [List.drop_left] at this
          simpa using this.symm
        have htlen : t.length ≤ n := by
          have := congrArg List.length ht
          simp at this
          simp only [List.length_cons] at hlen
          omega
        obtain ⟨segs, hne, hjoin, hrepl, hfree⟩ := ih t htlen
        refine ⟨[] :: segs, by simp, ?_, ?_, ?_⟩
        · rw [joinWith_cons_ne (s :: ss) [] segs hne]
          simp only [List.nil_append]
          rw [← hjoin]
          exact ht.symm
        · rw [joinWith_cons_ne repl [] segs hne]
          simp only [List.nil_append]
          rw [← hrepl]
          simp only [replaceGo, if_pos hp]
          rw [htdrop]
        · intro seg hseg
          rcases List.mem_cons.mp hseg with h | h
          · subst h
            simp [List.infix_nil]
          · exact hfree seg h
      · have hcslen : cs.length ≤ n := by
          simp only [List.length_cons] at hlen
          omega
        obtain ⟨segs, hne, hjoin, hrepl, hfree⟩ := ih cs hcslen
        match segs, hne with
        | seg0 :: rest, _ =>
          refine ⟨(c :: seg0) :: rest, by simp, ?_, ?_, ?_⟩
          · rw [joinWith_cons_head_cons, ← hjoin]
          · simp only [replaceGo, if_neg hp]
            rw [joinWith_cons_head_cons, ← hrepl]
          · intro seg hseg
            rcases List.mem_cons.mp hseg with h | h
            · subst h
              intro hinf
              rcases List.infix_cons_iff.mp hinf with hpre | hinf0
              · have hseg0 : seg0 <+: cs := by
                  obtain ⟨t, ht⟩ := joinWith_cons_prefix (s :: ss) seg0 rest
                  rw [hjoin, ht]
                  exact List.prefix_append seg0 t
                have : (s :: ss) <+: (c :: cs) :=
                  hpre.trans (List.cons_prefix_cons.mpr ⟨rfl, hseg0⟩)
                exact hp (List.isPrefixOf_iff_prefix.mpr this)
              · exact hfree seg0 (List.mem_cons_self seg0 rest) hinf0
            · exact hfree seg (List.mem_cons_of_mem seg0 h)

/-- C6: the literal replace of the edit step is byte-exact: for every file
content over arbitrary bytes and a non-empty search sequence, the content
splits into search-free segments separated by exact occurrences of the
search sequence, and the replace of `update_references` is the same
segments separated by the replacement sequence (every byte outside the
occurrences unchanged); in particular, with no occurrence present the
rewritten content equals the original byte for byte. -/
theorem c6_bytes_replace_exact (s : Nat) (ss repl content : List Nat) :
    (∃ segs : List (List Nat),
      segs ≠ [] ∧ content = joinWith (s :: ss) segs ∧
      bytesReplace (s :: ss) repl content = joinWith repl segs ∧
      ∀ seg ∈ segs, ¬ (s :: ss) <:+: seg) ∧
    (¬ (s :: ss) <:+: content → bytesReplace (s :: ss) repl content = content) := by
  have hmain := replaceGo_decomp s ss repl content.length content (Nat.le_refl _)
  constructor
  · exact hmain
  · intro hno
    obtain ⟨segs, hne, hjoin, hrepl, -⟩ := hmain
    match segs, hne with
    | [seg0], _ =>
      simp only [joinWith] at hjoin hrepl
      rw [hjoin] at hrepl ⊢
      exact hrepl
    | seg0 :: seg1 :: rest, _ =>
      exfalso
      apply hno
      rw [hjoin, joinWith_cons_ne (s :: ss) seg0 (seg1 :: rest) (by simp)]
      exact ⟨seg0, joinWith (s :: ss) (seg1 :: rest), by simp [List.append_assoc]⟩

/-- Witness for C6: a search sequence absent from a concrete two-byte
content leaves the content unchanged under the replace. -/
theorem c6_bytes_replace_exact_witness :
    ¬ ([1, 2] : List Nat) <:+: [0, 3] ∧
      bytesReplace [1, 2] [9] [0, 3] = [0, 3] :=
  ⟨by decide, (c6_bytes_replace_exact 1 [2] [9] [0, 3]).2 (by decide)⟩

lemma mem_firstSeenDedupAux (x : String) :
    ∀ (l seen : List String), x ∈ firstSeenDedupAux seen l ↔ x ∈ l ∧ x ∉ seen := by
  intro l
  induction l with
  | nil => intro seen; simp [firstSeenDedupAux]
  | cons y ys ih =>
    intro seen
    by_cases hy : y ∈ seen
    · rw [firstSeenDedupAux, if_pos hy, ih seen]
      constructor
      · rintro ⟨h1, h2⟩
        exact ⟨List.mem_cons_of_mem y h1, h2⟩
      · rintro ⟨h1, h2⟩
        rcases List.mem_cons.mp h1 with h | h
        · exact absurd (h ▸ hy) h2
        · exact ⟨h, h2⟩
    · rw [firstSeenDedupAux, if_neg hy]
      constructor
      · intro h
        rcases List.mem_cons.mp h with h | h
        · subst h
          exact ⟨List.mem_cons_self x ys, fun hx => hy hx⟩
        · obtain ⟨h1, h2⟩ := (ih (y :: seen)).mp h
          refine ⟨List.mem_cons_of_mem y h1, fun hx => h2 (List.mem_cons_of_mem y hx)⟩
      · rintro ⟨h1, h2⟩
        by_cases hxy : x = y
        · exact hxy ▸ List.mem_cons_self x _
        · rcases List.mem_cons.mp h1 with h | h
          · exact absurd h hxy
          · refine List.mem_cons_of_mem y ((ih (y :: seen)).mpr ⟨h, ?_⟩)
            intro hx
            rcases List.mem_cons.mp hx with h3 | h3
            · exact hxy h3
            · exact h2 h3

lemma nodup_firstSeenDedupAux :
    ∀ (l seen : List String), (firstSeenDedupAux seen l).Nodup := by
  intro l
  induction l with
  | nil => intro seen; simp [firstSeenDedupAux]
  | cons y ys ih =>
    intro seen
    by_cases hy : y ∈ seen
    · rw [firstSeenDedupAux, if_pos hy]
      exact ih seen
    · rw [firstSeenDedupAux, if_neg hy]
      refine List.nodup_cons.mpr ⟨?_, ih (y :: seen)⟩
      intro hmem
      exact ((mem_firstSeenDedupAux y ys (y :: seen)).mp hmem).2 (List.mem_cons_self y seen)

lemma firstSeenDedupAux_append_singleton (x : String) :
    ∀ (l seen : List String),
      firstSeenDedupAux seen (l ++ [x])
        = if x ∈ seen ∨ x ∈ l then firstSeenDedupAux seen l
          else firstSeenDedupAux seen l ++ [x] := by
  intro l
  induction l with
  | nil =>
    intro seen
    by_cases h : x ∈ seen <;> simp [firstSeenDedupAux, h]
  | cons y ys ih =>
    intro seen
    by_cases hy : y ∈ seen
    · rw [List.cons_append, firstSeenDedupAux, if_pos hy, ih seen,
        firstSeenDedupAux, if_pos hy]
      by_cases hx : x ∈ seen ∨ x ∈ ys
      · have hx1 : x ∈ seen ∨ x ∈ y :: ys := by
          rcases hx with h | h
          · exact Or.inl h
          · exact Or.inr (List.mem_cons_of_mem y h)
        rw [if_pos hx, if_pos hx1]
      · have hx1 : ¬(x ∈ seen ∨ x ∈ y :: ys) := by
          intro h
          rcases h with h | h
          · exact hx (Or.inl h)
          · rcases List.mem_cons.mp h with h | h
            · exact hx (Or.inl (h ▸ hy))
            · exact hx (Or.inr h)
        rw [if_neg hx, if_neg hx1]
    · rw [List.cons_append, firstSeenDedupAux, if_neg hy, ih (y :: seen),
        firstSeenDedupAux, if_neg hy]
      by_cases hx : x ∈ y :: seen ∨ x ∈ ys
      · have hx1 : x ∈ seen ∨ x ∈ y :: ys := by
          rcases hx with h | h
          · rcases List.mem_cons.mp h with h | h
            · exact Or.inr (h ▸ List.mem_cons_self y ys)
            · exact Or.inl h
          · exact Or.inr (List.mem_cons_of_mem y h)
        rw [if_pos hx, if_pos hx1]
      · have hx1 : ¬(x ∈ seen ∨ x ∈ y :: ys) := by
          intro h
          rcases h with h | h
          · exact hx (Or.inl (List.mem_cons_of_mem y h))
          · rcases List.mem_cons.mp h with h | h
            · exact hx (Or.inl (h ▸ List.mem_cons_self y seen))
            · exact hx (Or.inr h)
        rw [if_neg hx, if_neg hx1, List.cons_append]

lemma mem_firstSeenDedup (x : String) (l : List String) :
    x ∈ firstSeenDedup l ↔ x ∈ l := by
  rw [firstSeenDedup, mem_firstSeenDedupAux]
  simp

lemma firstSeenDedup_append_singleton (x : String) (l : List String) :
    firstSeenDedup (l ++ [x])
      = if x ∈ l then firstSeenDedup l else firstSeenDedup l ++ [x] := by
  rw [firstSeenDedup, firstSeenDedupAux_append_singleton]
  simp [firstSeenDedup]

lemma lookup_map_pair (f : String → List String) (b : String) :
    ∀ l : List String,
      List.lookup b (l.map (fun x => (x, f x))) = if b ∈ l then some (f b) else none := by
  intro l
  induction l with
  | nil => simp
  | cons y ys ih =>
    by_cases hb : b = y
    · subst hb
      simp [List.lookup]
    · have hbeq : (b == y) = false := by
        simp [hb]
      simp [List.lookup, hbeq, ih, hb]

lemma addRestriction_spec (p : List RestrItem) (it : RestrItem) :
    addRestriction (specRestrictionMapping p) it.matcherId it.restrType
      = specRestrictionMapping (p ++ [it]) := by
  have hids : (p ++ [it]).map RestrItem.matcherId
      = p.map RestrItem.matcherId ++ [it.matcherId] := by
    simp
  have hfilter : ∀ x : String,
      (p ++ [it]).filter (fun e => e.matcherId = x)
        = p.filter (fun e => e.matcherId = x)
          ++ (if it.matcherId = x then [it] else []) := by
    intro x
    rw [List.filter_append]
    congr 1
    by_cases hx : it.matcherId = x
    · simp [hx]
    · simp [hx]
  have hV_ne : ∀ x : String, it.matcherId ≠ x →
      firstSeenDedup (((p ++ [it]).filter (fun e => e.matcherId = x)).map RestrItem.restrType)
        = firstSeenDedup ((p.filter (fun e => e.matcherId = x)).map RestrItem.restrType) := by
    intro x hx
    rw [hfilter x, if_neg hx]
    simp
  have hV_eq :
      firstSeenDedup (((p ++ [it]).filter
          (fun e => e.matcherId = it.matcherId)).map RestrItem.restrType)
        = (if it.restrType ∈ (p.filter
              (fun e => e.matcherId = it.matcherId)).map RestrItem.restrType then
            firstSeenDedup ((p.filter
              (fun e => e.matcherId = it.matcherId)).map RestrItem.restrType)
          else
            firstSeenDedup ((p.filter
              (fun e => e.matcherId = it.matcherId)).map RestrItem.restrType)
              ++ [it.restrType]) := by
    rw [hfilter it.matcherId, if_pos rfl, List.map_append, List.map_cons, List.map_nil,
      firstSeenDedup_append_singleton]
  by_cases hmem : it.matcherId ∈ p.map RestrItem.matcherId
  · have hlu : (specRestrictionMapping p).lookup it.matcherId
        = some (firstSeenDedup ((p.filter
            (fun e => e.matcherId = it.matcherId)).map RestrItem.restrType)) := by
      rw [specRestrictionMapping, lookup_map_pair,
        if_pos ((mem_firstSeenDedup _ _).mpr hmem)]
    rw [addRestriction, if_pos (by rw [hlu]; rfl)]
    rw [specRestrictionMapping, specRestrictionMapping, hids,
      firstSeenDedup_append_singleton, if_pos hmem, List.map_map]
    refine List.map_congr_left ?_
    intro x hx
    by_cases hxb : x = it.matcherId
    · subst hxb
      simp only [Function.comp_apply, if_pos rfl, hV_eq]
      by_cases ht : it.restrType ∈ List.map RestrItem.restrType
          (List.filter (fun e => decide (e.matcherId = it.matcherId)) p)
      · rw [if_pos ((mem_firstSeenDedup _ _).mpr ht), if_pos ht]
        exact if_pos trivial
      · rw [if_neg (fun hc => ht ((mem_firstSeenDedup _ _).mp hc)), if_neg ht]
        exact if_pos trivial
    · simp only [Function.comp_apply, if_neg hxb]
      rw [hV_ne x (fun h => hxb h.symm)]
  · have hlu : (specRestrictionMapping p).lookup it.matcherId = none := by
      rw [specRestrictionMapping, lookup_map_pair,
        if_neg (fun h => hmem ((mem_firstSeenDedup _ _).mp h))]
    rw [addRestriction, if_neg (by rw [hlu]; simp)]
    rw [specRestrictionMapping, specRestrictionMapping, hids,
      firstSeenDedup_append_singleton, if_neg hmem, List.map_append, List.map_cons,
      List.map_nil]
    congr 1
    · refine List.map_congr_left ?_
      intro x hx
      have hxids : x ∈ p.map RestrItem.matcherId := (mem_firstSeenDedup _ _).mp hx
      have hxb : it.matcherId ≠ x := fun h => hmem (h ▸ hxids)
      rw [hV_ne x hxb]
    · have hfilnil : p.filter (fun e => e.matcherId = it.matcherId) = [] := by
        rw [List.filter_eq_nil_iff]
        intro a ha
        simp only [decide_eq_true_eq]
        intro heq
        exact hmem (heq ▸ List.mem_map_of_mem RestrItem.matcherId ha)
      rw [hfilter it.matcherId, if_pos rfl, hfilnil]
      simp [firstSeenDedup, firstSeenDedupAux]

lemma restrictionsFold_eq_spec :
    ∀ items : List RestrItem, restrictionsFold items = specRestrictionMapping items := by
  intro items
  induction items using List.reverseRecOn with
  | nil => rfl
  | append_singleton p it ih =>
    rw [restrictionsFold, List.foldl_append, List.foldl_cons, List.foldl_nil]
    rw [show List.foldl (fun m e => addRestriction m e.matcherId e.restrType) [] p
      = restrictionsFold p from rfl]
    rw [ih, addRestriction_spec]

lemma get_branch_restrictions_some (st : Nat) (tx : String) (body : RestrBody) :
    get_branch_restrictions { status := st, text := tx, body := some body }
      = if st = 200 then
          match body.values with
          | none => ([], Except.error "KeyError: values")
          | some items => ([], Except.ok (restrictionsFold items))
        else
          (["Failed to fetch branch restrictions. Status code: " ++ toString st],
            Except.ok []) := rfl

/-- C8 counterexample: a branch-restrictions response carrying a next-page
locator and one item, with one further item on the located page.  The claim
predicts a pagination loop whose mapping covers the items of all pages;
`get_branch_restrictions` performs a single fetch, never reads the next
field, and its result omits the second page's branch. -/
theorem c8_counterexample :
    (get_branch_restrictions
        { status := 200, text := "",
          body := some { values := some [{ matcherId := "b1", restrType := "read-only" }],
                         next := some "page2" } }).2
        = Except.ok [("b1", ["read-only"])] ∧
      specRestrictionMapping
          ([{ matcherId := "b1", restrType := "read-only" }]
            ++ [{ matcherId := "b2", restrType := "no-deletes" }])
        = [("b1", ["read-only"]), ("b2", ["no-deletes"])] ∧
      ([("b1", ["read-only"])] : List (String × List String))
        ≠ specRestrictionMapping
            ([{ matcherId := "b1", restrType := "read-only" }]
              ++ [{ matcherId := "b2", restrType := "no-deletes" }]) := by
  refine ⟨rfl, rfl, by decide⟩

/-- C8 amended: the branch-restrictions read performs a single fetch of the
endpoint (the next field of the response is never consulted), and for the
item sequence of that one response its result is exactly the mapping that
sends each branch matcher identity, in first-seen order, to the distinct
restriction-type strings applied to it in first-seen order, duplicate
(branch, type) pairs collapsing to one entry; every type list in the result
is free of duplicates. -/
theorem c8_amended_single_page_mapping (r : HttpResp (Option RestrBody)) :
    (∀ body items, r.body = some body → r.status = 200 → body.values = some items →
      get_branch_restrictions r = ([], Except.ok (specRestrictionMapping items))) ∧
    (∀ items b tys, (b, tys) ∈ specRestrictionMapping items → tys.Nodup) := by
  constructor
  · intro body items hb hs hv
    obtain ⟨st, tx, bd⟩ := r
    simp only at hb hs
    subst hb
    rw [get_branch_restrictions_some, if_pos hs, hv]
    show ([], Except.ok (restrictionsFold items))
      = (([] : List String), Except.ok (specRestrictionMapping items))
    rw [restrictionsFold_eq_spec]
  · intro items b tys hmem
    rw [specRestrictionMapping] at hmem
    obtain ⟨x, -, hx⟩ := List.mem_map.mp hmem
    have : tys = firstSeenDedup ((items.filter
        (fun e => e.matcherId = x)).map RestrItem.restrType) := by
      have := congrArg Prod.snd hx
      simpa using this.symm
    rw [this, firstSeenDedup]
    exact nodup_firstSeenDedupAux _ _

/-- Witness for C8 amended: a concrete page with a duplicate (branch, type)
pair and an interleaved second branch reduces to the first-seen mapping, and
the type lists of the mapping of that page are duplicate-free. -/
theorem c8_amended_single_page_mapping_witness :
    get_branch_restrictions
        { status := 200, text := "",
          body := some { values := some dupRestrPage, next := none } }
      = ([], Except.ok [("b1", ["read-only", "no-deletes"]),
                        ("b2", ["pull-request-only"])]) ∧
      List.Nodup ["read-only", "no-deletes"] := by
  constructor
  · rw [(c8_amended_single_page_mapping
      { status := 200, text := "",
        body := some { values := some dupRestrPage, next := none } }).1
      { values := some dupRestrPage, next := none } dupRestrPage rfl rfl rfl]
    rfl
  · exact (c8_amended_single_page_mapping
      { status := 200, text := "",
        body := some { values := some dupRestrPage, next := none } }).2
      dupRestrPage "b1" ["read-only", "no-deletes"] (by decide)

end BitbucketScripts
